import Mathlib

/-!
Shallow embedding of the drive-thru ordering program (src/mcdonalds.py) and
proofs about its catalog builder, fuzzy item resolver and order state machine.

Conventions of the embedding:
* Python `float` prices are modelled as exact rationals (`ℚ`); `round(x, 2)`
  is modelled as round-half-to-even on cents, which is the documented
  behaviour of the Python builtin on decimal values.
* Python `dict` (insertion ordered, unique keys) is modelled as an
  association list; `d[k] = v` keeps the position of an existing key and
  appends otherwise, exactly like the Python dictionary.
* Python string operations (`lower`, `strip`, `replace`, `split`, `in`) are
  reimplemented structurally over `List Char` so that every definition
  reduces in the kernel.  `lower` is ASCII case mapping; every string handled
  by the program that contains a non-ASCII character contains it already in
  lower case, so this agrees with the Python semantics on the modelled data.
* `random.uniform(0, 2)` is modelled by an explicit stream `jitter : ℕ → ℚ`
  of offsets consumed one per created item; `uniform(0, 2)` computes
  `0 + (2-0)*random()` with `random() ∈ [0,1)`, hence each offset satisfies
  `0 ≤ u < 2`.
* Fallible code is `Option`-valued: `none` models an uncaught Python
  exception (for example `list.pop` raising `IndexError`).
-/

namespace McD

/-! ## Python-style string primitives -/

/-- ASCII lower-casing of one character, as Python `str.lower` acts on ASCII. -/
def lowerChar (c : Char) : Char :=
  if c.toNat ≥ 65 ∧ c.toNat ≤ 90 then Char.ofNat (c.toNat + 32) else c

/-- Python `str.lower` (ASCII fragment, see the module comment). -/
def pyLower (s : String) : String :=
  String.mk (s.data.map lowerChar)

/-- Whitespace characters recognised by Python `strip`/`split` (ASCII fragment). -/
def pySpace (c : Char) : Bool :=
  c == ' ' || c == '\t' || c == '\n' || c == '\r' || c == Char.ofNat 11 || c == Char.ofNat 12

/-- Python `str.strip()`: drop leading and trailing whitespace. -/
def pyStrip (s : String) : String :=
  String.mk (((s.data.dropWhile (fun c => pySpace c)).reverse.dropWhile
      (fun c => pySpace c)).reverse)

/-- One pass of Python `str.replace`: replace every non-overlapping occurrence
of `pat` (non-empty on every use site) left to right.  The counter argument
skips the remaining characters of a pattern occurrence that has just been
replaced, keeping the recursion structural. -/
def replaceGo (pat rep : List Char) : List Char → ℕ → List Char
  | [], _ => []
  | _ :: rest, skip + 1 => replaceGo pat rep rest skip
  | c :: rest, 0 =>
    if pat ≠ [] ∧ pat.isPrefixOf (c :: rest) then
      rep ++ replaceGo pat rep rest (pat.length - 1)
    else
      c :: replaceGo pat rep rest 0

/-- Python `s.replace(pat, rep)`. -/
def pyReplace (s pat rep : String) : String :=
  String.mk (replaceGo pat.data rep.data s.data 0)

/-- Helper for `pySplit`: accumulate the current token (reversed). -/
def splitWsGo : List Char → List Char → List String
  | [], cur => if cur = [] then [] else [String.mk cur.reverse]
  | c :: rest, cur =>
    if pySpace c then
      if cur = [] then splitWsGo rest []
      else String.mk cur.reverse :: splitWsGo rest []
    else
      splitWsGo rest (c :: cur)

/-- Python `str.split()` with no argument: split on whitespace runs,
discarding empty tokens. -/
def pySplit (s : String) : List String :=
  splitWsGo s.data []

/-- Helper for `strIn`: does `pat` occur as a contiguous sublist of the second list. -/
def substrAux (pat : List Char) : List Char → Bool
  | [] => pat.isEmpty
  | c :: rest => pat.isPrefixOf (c :: rest) || substrAux pat rest

/-- Python `needle in hay` on strings: substring containment. -/
def strIn (needle hay : String) : Bool :=
  substrAux needle.data hay.data

/-- Python `len(set(a.split()) & set(b.split()))`: the number of distinct
whitespace tokens the two strings share. -/
def tokensInterCount (a b : String) : ℕ :=
  (((pySplit a).dedup).filter (fun t => (pySplit b).contains t)).length

/-! ## Rounding and prices -/

/-- Round-half-to-even to an integer, the idealised semantics of the Python
`round` builtin on a decimal value. -/
def roundHalfEven (q : ℚ) : ℤ :=
  if q - (⌊q⌋ : ℚ) < 1/2 then ⌊q⌋
  else if (1 : ℚ)/2 < q - (⌊q⌋ : ℚ) then ⌈q⌉
  else if ⌊q⌋ % 2 = 0 then ⌊q⌋ else ⌈q⌉

/-- Python `round(x, 2)`: round to cents. -/
def pyRound2 (q : ℚ) : ℚ :=
  (roundHalfEven (100 * q) : ℚ) / 100

/-! ## Data model (the pydantic models of the source) -/

/-- `ItemSize` enum of the source. -/
inductive ItemSize where
  | small
  | medium
  | large
deriving DecidableEq, Repr

/-- `MenuItem` model of the source.  `created_at`-style wall-clock data does
not occur here; `price` is an exact rational (see the module comment). -/
structure MenuItem where
  id : String
  name : String
  description : String
  price : ℚ
  category : String
  available_sizes : Option (List ItemSize)
  is_available : Bool := true
deriving DecidableEq, Repr

/-- `OrderItem` model of the source. -/
structure OrderItem where
  menu_item : MenuItem
  quantity : ℤ := 1
  size : Option ItemSize := none
  special_instructions : Option String := none
deriving DecidableEq, Repr

/-- `Order` model of the source.  The `created_at` timestamp is wall-clock
data with no bearing on any behaviour and is omitted. -/
structure Order where
  id : String
  items : List OrderItem := []
  status : String := "in_progress"
  total : ℚ := 0
deriving DecidableEq, Repr

/-- `Order.calculate_total` of the source: fold the running total over the
lines, adding `price * quantity` for each. -/
def Order.calculate_total (o : Order) : ℚ :=
  o.items.foldl (fun t it => t + it.menu_item.price * (it.quantity : ℚ)) 0

/-- The sum the specification text describes: sum over the lines of the
referenced item price times the quantity of the line. -/
def lineSum (items : List OrderItem) : ℚ :=
  (items.map (fun it => it.menu_item.price * (it.quantity : ℚ))).sum

/-! ## Session state and order operations (`DriveThruAI` of the source) -/

/-- The mutable state of `DriveThruAI`: the menu dictionary (association
list, see the module comment), the optional active order and the completed
order history.  The `menu_scraper` sub-object is modelled separately as
`MenuScraper`. -/
structure DriveThruAI where
  menu : List (String × MenuItem)
  current_order : Option Order := none
  orders_history : List Order := []
deriving DecidableEq, Repr

/-- Python dictionary lookup `menu[item_id]` as an `Option`. -/
def menuLookup (menu : List (String × MenuItem)) (key : String) : Option MenuItem :=
  (menu.find? (fun p => p.1 == key)).map (fun p => p.2)

/-- `DriveThruAI.start_new_order`: install a fresh in-progress order whose id
counts from the history length. -/
def start_new_order (s : DriveThruAI) : DriveThruAI × Order :=
  let o : Order := { id := "order_" ++ toString (s.orders_history.length + 1) }
  ({ s with current_order := some o }, o)

/-- Truthiness of the `available_sizes` field (`None` and `[]` are falsy). -/
def sizesTruthy : Option (List ItemSize) → Bool
  | none => false
  | some l => !l.isEmpty

/-- The size guard of `add_item_to_order`:
`menu_item.available_sizes and size not in menu_item.available_sizes`.
Python membership of `None` in a list of sizes is `False`, so an absent size
fails the guard whenever a non-empty size list is declared. -/
def sizeRejects (sizes : Option (List ItemSize)) (size : Option ItemSize) : Bool :=
  match sizes with
  | none => false
  | some l =>
    !l.isEmpty && !(match size with
      | none => false
      | some x => decide (x ∈ l))

/-- `DriveThruAI.add_item_to_order`: validate, append an `OrderItem`, and
recompute the total. -/
def add_item_to_order (s : DriveThruAI) (item_id : String) (quantity : ℤ)
    (size : Option ItemSize) (special_instructions : Option String) :
    Bool × DriveThruAI :=
  match s.current_order with
  | none => (false, s)
  | some o =>
    match menuLookup s.menu item_id with
    | none => (false, s)
    | some menu_item =>
      if sizeRejects menu_item.available_sizes size then (false, s)
      else
        let o1 : Order := { o with
          items := o.items ++ [{ menu_item := menu_item, quantity := quantity,
                                 size := size, special_instructions := special_instructions }] }
        let o2 : Order := { o1 with total := o1.calculate_total }
        (true, { s with current_order := some o2 })

/-- Python `list.pop(i)` as a partial operation: `none` models the
`IndexError` raised when `i` is below `-len` or at or above `len`. -/
def popAt (xs : List OrderItem) (i : ℤ) : Option (List OrderItem) :=
  let n : ℤ := xs.length
  let j : ℤ := if i < 0 then i + n else i
  if 0 ≤ j ∧ j < n then some (xs.eraseIdx j.toNat) else none

/-- `DriveThruAI.remove_item_from_order`.  The source only guards
`item_index >= len(items)`; a negative index reaches `list.pop`, which
removes from the end for `-len ≤ i < 0` and raises (`none`) below that. -/
def remove_item_from_order (s : DriveThruAI) (item_index : ℤ) :
    Option (Bool × DriveThruAI) :=
  match s.current_order with
  | none => some (false, s)
  | some o =>
    if item_index ≥ (o.items.length : ℤ) then some (false, s)
    else
      match popAt o.items item_index with
      | none => none
      | some items1 =>
        let o1 : Order := { o with items := items1 }
        let o2 : Order := { o1 with total := o1.calculate_total }
        some (true, { s with current_order := some o2 })

/-- `DriveThruAI.checkout`: reject an absent or empty order, otherwise mark
the order completed, append it to the history and clear the active slot. -/
def checkout (s : DriveThruAI) : Bool × DriveThruAI :=
  match s.current_order with
  | none => (false, s)
  | some o =>
    if o.items.isEmpty then (false, s)
    else
      let o1 : Order := { o with status := "completed" }
      (true, { s with current_order := none,
                      orders_history := s.orders_history ++ [o1] })

/-! ## Menu scraper (`MenuScraper` of the source)

The network fetch and HTML parsing are external collaborators; the embedding
takes the already-segmented raw `category → item names` entries that the
parsing loop extracts, which is exactly the data the construction loop of
`scrape_menu` consumes. -/

/-- The state of `MenuScraper` relevant to catalog construction: the
`menu_data` dictionary.  It is initialised empty once in `__init__` and —
notably — never cleared by `scrape_menu` itself. -/
structure MenuScraper where
  menu_data : List (String × MenuItem) := []
deriving DecidableEq, Repr

/-- `MenuScraper._get_base_price`: fixed per-category table with default
`4.99` for unknown categories (`prices.get(category, 4.99)`). -/
def get_base_price (category : String) : ℚ :=
  if category = "Featured Favorites" then 599/100
  else if category = "Breakfast" then 499/100
  else if category = "Burgers" then 549/100
  else if category = "Chicken & Fish Sandwiches" then 599/100
  else if category = "McNuggets" then 499/100
  else if category = "Fries & Sides" then 299/100
  else if category = "Happy Meal" then 449/100
  else if category = "McCafé Coffees" then 399/100
  else if category = "Sweets & Treats" then 299/100
  else if category = "Beverages" then 199/100
  else 499/100

/-- `MenuScraper._generate_description`: per-category template with a
generic fallback. -/
def genDescription (name category : String) : String :=
  if category = "Burgers" then "A delicious " ++ name ++ " with fresh ingredients"
  else if category = "Breakfast" then "A satisfying " ++ name ++ " to start your day"
  else if category = "Beverages" then "Refreshing " ++ name
  else if category = "Sweets & Treats" then "Sweet and tasty " ++ name
  else if category = "McCafé Coffees" then "Premium " ++ name ++ " made with quality ingredients"
  else if category = "Fries & Sides" then "Crispy and golden " ++ name
  else if category = "Chicken & Fish Sandwiches" then "Tender and flavorful " ++ name
  else if category = "McNuggets" then "Tender and juicy " ++ name
  else if category = "Happy Meal" then "Fun " ++ name ++ " for kids"
  else if category = "Featured Favorites" then "Popular " ++ name ++ " that customers love"
  else "Tasty " ++ name

/-- `MenuScraper._get_available_sizes`: the fixed three-size set for the
three sized categories, absent otherwise. -/
def getAvailableSizes (category : String) : Option (List ItemSize) :=
  if category = "Beverages" ∨ category = "McCafé Coffees" ∨ category = "Fries & Sides" then
    some [ItemSize.small, ItemSize.medium, ItemSize.large]
  else none

/-- Python dictionary assignment `d[k] = v`: overwrite in place when the key
exists, append otherwise. -/
def dictInsert (m : List (String × MenuItem)) (k : String) (v : MenuItem) :
    List (String × MenuItem) :=
  if (m.find? (fun p => p.1 == k)).isSome then
    m.map (fun p => if p.1 == k then (k, v) else p)
  else
    m ++ [(k, v)]

/-- The inner loop of `scrape_menu` for one category: for each raw item text,
strip it, skip empties, assign the synthetic id
`category[:3] + "_" + (len(menu_data)+1)`, price it from the base price plus
the next jitter offset, and insert it into `menu_data`.  The second
accumulator component counts the random offsets consumed so far. -/
def scrapeItems (jitter : ℕ → ℚ) (category : String) :
    List String → List (String × MenuItem) × ℕ → List (String × MenuItem) × ℕ
  | [], acc => acc
  | rawName :: rest, (md, k) =>
    let item_name := pyStrip rawName
    if item_name = "" then scrapeItems jitter category rest (md, k)
    else
      let item_id := category.take 3 ++ "_" ++ toString (md.length + 1)
      let item : MenuItem := {
        id := item_id
        name := item_name
        description := genDescription item_name category
        price := pyRound2 (get_base_price category + jitter k)
        category := category
        available_sizes := getAvailableSizes category
        is_available := true }
      scrapeItems jitter category rest (dictInsert md item_id item, k + 1)

/-- `MenuScraper.scrape_menu` on already-segmented raw entries: extend the
scraper state `menu_data` (never cleared) with the items built from the raw
entries and return it. -/
def scrape_menu (sc : MenuScraper) (raw : List (String × List String))
    (jitter : ℕ → ℚ) : MenuScraper × List (String × MenuItem) :=
  let md := (raw.foldl (fun acc p => scrapeItems jitter p.1 p.2 acc)
      (sc.menu_data, 0)).1
  ({ menu_data := md }, md)

/-! ## Fuzzy resolver (the matching loop of the `add_to_order` tool) -/

/-- Normalisation applied to the query text in `add_to_order`: lower-case,
strip, then the three literal replacements. -/
def normQuery (s : String) : String :=
  pyReplace (pyReplace (pyReplace (pyStrip (pyLower s)) " and " " & ") " with " " w/ ") " meal" ""

/-- Normalisation applied to each menu item name in `add_to_order`: the same
replacements but — as in the source — without the strip. -/
def normMenu (s : String) : String :=
  pyReplace (pyReplace (pyReplace (pyLower s) " and " " & ") " with " " w/ ") " meal" ""

/-- Python truthiness of the optional-string variables `item_id` and
`best_match` (`None` and the empty string are falsy). -/
def pyTruthyS : Option String → Bool
  | none => false
  | some s => !(s == "")

/-- The partial-match accumulator update of the resolver loop: when either
normalised name contains the other, score the candidate by the shared-token
count and keep it only when it strictly beats the best score so far. -/
def updAcc (input : String) (acc : Option String × ℕ) (p : String × MenuItem) :
    Option String × ℕ :=
  let menuName := normMenu p.2.name
  if strIn input menuName || strIn menuName input then
    let score := tokensInterCount input menuName
    if acc.2 < score then (some p.1, score) else acc
  else acc

/-- The resolver loop over the menu dictionary: return at the first exact
normalised match (the Python `break`), otherwise fold the partial-match
accumulator over the whole list. -/
def resolveScan (input : String) :
    List (String × MenuItem) → Option String × ℕ → Option String × (Option String × ℕ)
  | [], acc => (none, acc)
  | p :: rest, acc =>
    if normMenu p.2.name = input then (some p.1, acc)
    else resolveScan input rest (updAcc input acc p)

/-- The resolution result of `add_to_order`: the final value of `item_id`
after the `if not item_id and best_match` promotion, with a non-truthy value
meaning not found. -/
def resolveId (menu : List (String × MenuItem)) (item_name : String) : Option String :=
  let input := normQuery item_name
  let r := resolveScan input menu (none, 0)
  let item_id := if !(pyTruthyS r.1) && pyTruthyS r.2.1 then r.2.1 else r.1
  if pyTruthyS item_id then item_id else none

/-! ## The `add_to_order` tool -/

/-- The distinct replies the `add_to_order` tool can return.  Each
constructor stands for one of the literal reply strings of the source; the
string rendering itself is presentation and carries no other data than what
the constructors record. -/
inductive ToolReply where
  | notFound
  | clarifyMilk
  | clarifyCoffee
  | askSize (item : MenuItem)
  | added (item_id : String)
  | addFailed
deriving DecidableEq, Repr

/-- The first step of the `add_to_order` tool: start a new order when the
session has none. -/
def ensureOrder (s : DriveThruAI) : DriveThruAI :=
  if s.current_order.isNone then (start_new_order s).1 else s

/-- The `add_to_order` tool: ensure an active order, resolve the free-text
name, apply the milk/coffee disambiguation override, ask for a missing size
on a sized item, and finally delegate to `add_item_to_order`.  The
`menuLookup … = none` branch is unreachable because `resolveId` only returns
keys of the menu dictionary. -/
def add_to_order (s : DriveThruAI) (item_name : String) (quantity : ℤ)
    (size : Option ItemSize) (special_instructions : Option String) :
    ToolReply × DriveThruAI :=
  let s1 := ensureOrder s
  match resolveId s1.menu item_name with
  | none => (ToolReply.notFound, s1)
  | some item_id =>
    match menuLookup s1.menu item_id with
    | none => (ToolReply.addFailed, s1)
    | some menu_item =>
      if strIn "milk" (pyLower menu_item.name) then (ToolReply.clarifyMilk, s1)
      else if strIn "coffee" (pyLower menu_item.name) then (ToolReply.clarifyCoffee, s1)
      else if sizesTruthy menu_item.available_sizes && size.isNone then
        (ToolReply.askSize menu_item, s1)
      else
        let r := add_item_to_order s1 item_id quantity size special_instructions
        (if r.1 then ToolReply.added item_id else ToolReply.addFailed, r.2)

/-! ## Mutation sequences over the order state -/

/-- One order-layer mutation: an `add_item_to_order` or a
`remove_item_from_order` call. -/
inductive Mutation where
  | add (item_id : String) (quantity : ℤ) (size : Option ItemSize)
      (special_instructions : Option String)
  | remove (item_index : ℤ)
deriving Repr

/-- Apply one mutation; `none` models an uncaught exception. -/
def applyMut (s : DriveThruAI) : Mutation → Option (Bool × DriveThruAI)
  | Mutation.add item_id q sz instr => some (add_item_to_order s item_id q sz instr)
  | Mutation.remove i => remove_item_from_order s i

/-- Run a sequence of mutations, requiring every one of them to succeed, and
collect the state after each mutation. -/
def execSucc (s : DriveThruAI) : List Mutation → Option (List DriveThruAI)
  | [] => some []
  | m :: ms =>
    match applyMut s m with
    | some (true, s1) => (execSucc s1 ms).map (fun l => s1 :: l)
    | _ => none

/-! ## Concrete states used to instantiate the theorems -/

/-- The apostrophe character. -/
def apos : Char := Char.ofNat 39

/-- The query text of the resolver scenario: `I'd like a big mac meal`. -/
def bigMacMealQuery : String := "I" ++ String.singleton apos ++ "d like a big mac meal"

/-- The `Big Mac` catalog item of the resolver scenario. -/
def bigMacItem : MenuItem :=
  { id := "B1", name := "Big Mac",
    description := "A delicious Big Mac with fresh ingredients",
    price := 549/100, category := "Burgers", available_sizes := none }

/-- A sized catalog item (fries). -/
def friesItem : MenuItem :=
  { id := "F1", name := "World Famous Fries",
    description := "Crispy and golden World Famous Fries",
    price := 299/100, category := "Fries & Sides",
    available_sizes := some [ItemSize.small, ItemSize.medium, ItemSize.large] }

/-- The coffee catalog item of the disambiguation scenario. -/
def coffeeItem : MenuItem :=
  { id := "C1", name := "McCafé Premium Roast Coffee",
    description := "Premium McCafé Premium Roast Coffee made with quality ingredients",
    price := 399/100, category := "McCafé Coffees",
    available_sizes := some [ItemSize.small, ItemSize.medium, ItemSize.large] }

/-- A fresh empty in-progress order. -/
def emptyOrder1 : Order := { id := "order_1" }

/-- A session with the Big Mac on the menu and an empty active order. -/
def sessionB : DriveThruAI :=
  { menu := [("B1", bigMacItem)], current_order := some emptyOrder1 }

/-- A session with the fries on the menu and an empty active order. -/
def sessionF : DriveThruAI :=
  { menu := [("F1", friesItem)], current_order := some emptyOrder1 }

/-- An order holding exactly one Big Mac line. -/
def oneLineOrder : Order :=
  { id := "order_1", items := [{ menu_item := bigMacItem }], total := 549/100 }

/-- A session whose active order holds exactly one line. -/
def sessionOne : DriveThruAI :=
  { menu := [("B1", bigMacItem)], current_order := some oneLineOrder }

/-- A session with the coffee item on the menu and an empty active order. -/
def coffeeSession : DriveThruAI :=
  { menu := [("C1", coffeeItem)], current_order := some emptyOrder1 }

/-- The order obtained from `emptyOrder1` by adding two Big Macs. -/
def orderB2 : Order :=
  { id := "order_1", items := [{ menu_item := bigMacItem, quantity := 2 }], total := 549/50 }

/-- The session obtained from `sessionB` by adding two Big Macs. -/
def sessionBAfter : DriveThruAI :=
  { menu := [("B1", bigMacItem)], current_order := some orderB2 }

/-- First candidate of the constructed tie: shares the token `chicken` with
the query `chicken sandwich`. -/
def chickenItem : MenuItem :=
  { id := "A1", name := "chicken", description := "Tasty chicken",
    price := 499/100, category := "McNuggets", available_sizes := none }

/-- Second candidate of the constructed tie: shares the token `sandwich`
with the query `chicken sandwich`. -/
def sandwichItem : MenuItem :=
  { id := "A2", name := "sandwich", description := "Tasty sandwich",
    price := 599/100, category := "Chicken & Fish Sandwiches", available_sizes := none }

/-- A catalog item whose name matches the query `bigmac` as a substring but
shares no whitespace token with it. -/
def bigmacsItem : MenuItem :=
  { id := "X1", name := "bigmacs", description := "Tasty bigmacs",
    price := 549/100, category := "Burgers", available_sizes := none }

/-- A session with a one-item menu and no active order. -/
def noOrderSession : DriveThruAI := { menu := [("B1", bigMacItem)] }

/-- The price of a catalog entry lies between the base price of its category
and that base price plus two (inclusive: rounding can reach the top). -/
def priceInRange (p : String × MenuItem) : Prop :=
  get_base_price p.2.category ≤ p.2.price ∧ p.2.price ≤ get_base_price p.2.category + 2

/-! ## Helper lemmas -/

/-- Folding an accumulating sum equals the initial value plus the mapped sum. -/
theorem foldl_add_map (f : OrderItem → ℚ) (l : List OrderItem) (a : ℚ) :
    l.foldl (fun t it => t + f it) a = a + (l.map f).sum := by
  induction l generalizing a with
  | nil => simp
  | cons x xs ih => simp [ih, add_assoc]

/-- `Order.calculate_total` computes the specification sum over the lines. -/
theorem calculate_total_eq_lineSum (o : Order) : o.calculate_total = lineSum o.items := by
  simpa [Order.calculate_total, lineSum] using
    foldl_add_map (fun it => it.menu_item.price * (it.quantity : ℚ)) o.items 0

/-- After any single successful mutation the active order total equals the
specification sum over its lines. -/
theorem applyMut_total (s : DriveThruAI) (m : Mutation) (s' : DriveThruAI)
    (h : applyMut s m = some (true, s')) :
    ∀ o, s'.current_order = some o → o.total = lineSum o.items := by
  intro o ho
  cases m with
  | add item_id q sz instr =>
    have h' : add_item_to_order s item_id q sz instr = (true, s') := by
      simpa [applyMut] using h
    unfold add_item_to_order at h'
    split at h'
    · simp at h'
    · split at h'
      · simp at h'
      · split at h'
        · simp at h'
        · have hX := congrArg Prod.snd h'
          simp only at hX
          rw [← hX] at ho
          simp only [Option.some.injEq] at ho
          rw [← ho]
          simp [calculate_total_eq_lineSum]
  | remove i =>
    have h' : remove_item_from_order s i = some (true, s') := by
      simpa [applyMut] using h
    unfold remove_item_from_order at h'
    split at h'
    · simp at h'
    · split at h'
      · simp at h'
      · split at h'
        · simp at h'
        · have h'' := Option.some.inj h'
          have hX := congrArg Prod.snd h''
          simp only at hX
          rw [← hX] at ho
          simp only [Option.some.injEq] at ho
          rw [← ho]
          simp [calculate_total_eq_lineSum]

/-! ## C1: the total invariant under mutation sequences -/

/-- C1.  For every session state and every sequence of successful
add/remove mutations, immediately after each mutation the active order total
equals the sum over its current lines of the referenced item price times the
line quantity. -/
theorem total_invariant_after_mutations (s : DriveThruAI) (ms : List Mutation)
    (states : List DriveThruAI) (h : execSucc s ms = some states) :
    ∀ s' ∈ states, ∀ o, s'.current_order = some o → o.total = lineSum o.items := by
  induction ms generalizing s states with
  | nil =>
    simp only [execSucc, Option.some.injEq] at h
    subst h; simp
  | cons m ms ih =>
    simp only [execSucc] at h
    cases ha : applyMut s m with
    | none => rw [ha] at h; simp at h
    | some p =>
      obtain ⟨b, s1⟩ := p
      rw [ha] at h
      cases b with
      | false => simp at h
      | true =>
        simp only [Option.map_eq_some'] at h
        obtain ⟨rest, hrest, hstates⟩ := h
        subst hstates
        intro s' hs'
        rcases List.mem_cons.mp hs' with rfl | hmem
        · exact applyMut_total s m s' ha
        · exact ih s1 rest hrest s' hmem

/-- Witness for C1: a concrete successful mutation sequence on `sessionB`,
with the invariant instantiated on the state it produces. -/
theorem total_invariant_witness :
    execSucc sessionB [Mutation.add "B1" 2 none none] = some [sessionBAfter] ∧
    orderB2.total = lineSum orderB2.items := by
  have hexec : execSucc sessionB [Mutation.add "B1" 2 none none] = some [sessionBAfter] := by
    simp [execSucc, applyMut, add_item_to_order, sessionB, emptyOrder1, menuLookup,
          sizeRejects, bigMacItem, Order.calculate_total, orderB2, sessionBAfter]
    norm_num
  exact ⟨hexec,
    total_invariant_after_mutations sessionB [Mutation.add "B1" 2 none none]
      [sessionBAfter] hexec sessionBAfter (List.mem_singleton.mpr rfl) orderB2 rfl⟩

/-! ## C2: checkout -/

/-- C2.  Checkout with no active order or an empty active order returns
false and changes nothing; checkout on a non-empty active order returns
true, marks that order completed, appends it to the history and empties the
active-order slot. -/
theorem checkout_spec (s : DriveThruAI) :
    ((s.current_order = none ∨ ∃ o, s.current_order = some o ∧ o.items = []) →
      checkout s = (false, s)) ∧
    (∀ o, s.current_order = some o → o.items ≠ [] →
      checkout s = (true, { s with
        current_order := none,
        orders_history := s.orders_history ++ [{ o with status := "completed" }] })) := by
  constructor
  · rintro (h | ⟨o, ho, hi⟩)
    · simp [checkout, h]
    · simp [checkout, ho, hi]
  · intro o ho hi
    simp [checkout, ho, List.isEmpty_iff, hi]

/-- Witness for C2: both branches instantiated on concrete sessions. -/
theorem checkout_spec_witness :
    checkout sessionB = (false, sessionB) ∧
    checkout sessionOne = (true, { sessionOne with
      current_order := none,
      orders_history := [{ oneLineOrder with status := "completed" }] }) := by
  constructor
  · exact (checkout_spec sessionB).1 (Or.inr ⟨emptyOrder1, rfl, rfl⟩)
  · exact (checkout_spec sessionOne).2 oneLineOrder rfl (by simp [oneLineOrder])

/-! ## C3: removeLine and index bounds -/

/-- Counterexample to C3 as stated: on a session whose active order has one
line, `remove_item_from_order (-1)` does not return false and leave the
order unchanged — it removes the last line and returns true, because the
source only guards `item_index >= len(items)` and `list.pop` accepts
negative indices. -/
theorem removeLine_negative_counterexample :
    remove_item_from_order sessionOne (-1) =
      some (true, { sessionOne with
        current_order := some { oneLineOrder with items := [], total := 0 } }) ∧
    sessionOne.current_order = some oneLineOrder ∧
    oneLineOrder.items.length = 1 := by
  refine ⟨?_, rfl, rfl⟩
  simp [remove_item_from_order, sessionOne, oneLineOrder, popAt, Order.calculate_total]

/-- C3 amended.  With an active order, `remove_item_from_order` returns
false and leaves the session unchanged exactly when the index is at least
the number of lines; an in-bounds non-negative index removes that line and
recomputes the total; a negative index down to minus the length removes
counting from the end (Python negative indexing); below that the underlying
`list.pop` raises.  Without an active order it returns false unchanged. -/
theorem removeLine_spec :
    (∀ (s : DriveThruAI) (i : ℤ), s.current_order = none →
      remove_item_from_order s i = some (false, s)) ∧
    (∀ (s : DriveThruAI) (o : Order) (i : ℤ), s.current_order = some o →
      (((o.items.length : ℤ) ≤ i → remove_item_from_order s i = some (false, s)) ∧
       (0 ≤ i → i < (o.items.length : ℤ) →
         remove_item_from_order s i = some (true, { s with
           current_order := some { o with
             items := o.items.eraseIdx i.toNat,
             total := lineSum (o.items.eraseIdx i.toNat) } })) ∧
       (-(o.items.length : ℤ) ≤ i → i < 0 →
         remove_item_from_order s i = some (true, { s with
           current_order := some { o with
             items := o.items.eraseIdx (i + (o.items.length : ℤ)).toNat,
             total := lineSum (o.items.eraseIdx (i + (o.items.length : ℤ)).toNat) } })) ∧
       (i < -(o.items.length : ℤ) → remove_item_from_order s i = none))) := by
  constructor
  · intro s i h
    simp [remove_item_from_order, h]
  · intro s o i ho
    refine ⟨?_, ?_, ?_, ?_⟩
    · intro hle
      simp [remove_item_from_order, ho, hle, ge_iff_le]
    · intro h0 hlt
      have hg : ¬ ((o.items.length : ℤ) ≤ i) := by omega
      have hpop : popAt o.items i = some (o.items.eraseIdx i.toNat) := by
        simp only [popAt]
        rw [if_neg (by omega : ¬ i < 0)]
        rw [if_pos ⟨h0, hlt⟩]
      simp [remove_item_from_order, ho, ge_iff_le, hg, hpop, calculate_total_eq_lineSum]
    · intro hge hneg
      have hg : ¬ ((o.items.length : ℤ) ≤ i) := by omega
      have hpop : popAt o.items i =
          some (o.items.eraseIdx (i + (o.items.length : ℤ)).toNat) := by
        simp only [popAt]
        rw [if_pos hneg]
        rw [if_pos (by omega : 0 ≤ i + (o.items.length : ℤ) ∧
              i + (o.items.length : ℤ) < (o.items.length : ℤ))]
      simp [remove_item_from_order, ho, ge_iff_le, hg, hpop, calculate_total_eq_lineSum]
    · intro hlt
      have hg : ¬ ((o.items.length : ℤ) ≤ i) := by omega
      have hpop : popAt o.items i = none := by
        simp only [popAt]
        rw [if_pos (by omega : i < 0)]
        rw [if_neg (by omega : ¬ (0 ≤ i + (o.items.length : ℤ) ∧
              i + (o.items.length : ℤ) < (o.items.length : ℤ)))]
      simp [remove_item_from_order, ho, ge_iff_le, hg, hpop]

/-- Witness for the amended C3: the three behaviours on concrete inputs. -/
theorem removeLine_spec_witness :
    remove_item_from_order sessionOne 5 = some (false, sessionOne) ∧
    remove_item_from_order sessionOne 0 = some (true, { sessionOne with
      current_order := some { oneLineOrder with items := [], total := 0 } }) ∧
    remove_item_from_order sessionOne (-2) = none := by
  refine ⟨?_, ?_, ?_⟩
  · exact (removeLine_spec.2 sessionOne oneLineOrder 5 rfl).1 (by simp [oneLineOrder])
  · exact ((removeLine_spec.2 sessionOne oneLineOrder 0 rfl).2.1 (by norm_num)
      (by simp [oneLineOrder])).trans (by simp [oneLineOrder, lineSum])
  · exact (removeLine_spec.2 sessionOne oneLineOrder (-2) rfl).2.2.2
      (by simp [oneLineOrder])

/-! ## C4: size validation in addLine -/

/-- C4.  In every catalog the builder produces, a declared size set is the
full non-empty three-size list (first conjunct); and for every item whose
declared size set is non-empty, a request whose size is absent or not among
the declared sizes makes `add_item_to_order` return false and leave the
session unchanged (second conjunct). -/
theorem addLine_size_reject :
    (∀ category, getAvailableSizes category = none ∨
      getAvailableSizes category = some [ItemSize.small, ItemSize.medium, ItemSize.large]) ∧
    (∀ (s : DriveThruAI) (item_id : String) (q : ℤ) (sz : Option ItemSize)
        (instr : Option String) (item : MenuItem) (szs : List ItemSize),
      menuLookup s.menu item_id = some item →
      item.available_sizes = some szs →
      szs ≠ [] →
      (∀ x, sz = some x → x ∉ szs) →
      add_item_to_order s item_id q sz instr = (false, s)) := by
  constructor
  · intro category
    unfold getAvailableSizes
    split
    · right; rfl
    · left; rfl
  · intro s item_id q sz instr item szs hl hs hne hnotin
    have hrej : sizeRejects item.available_sizes sz = true := by
      rw [hs]
      simp only [sizeRejects, Bool.and_eq_true, Bool.not_eq_true']
      constructor
      · simpa [List.isEmpty_iff] using hne
      · cases sz with
        | none => rfl
        | some x => exact decide_eq_false (hnotin x rfl)
    cases hc : s.current_order with
    | none => simp [add_item_to_order, hc]
    | some o => simp [add_item_to_order, hc, hl, hrej]

/-- Witness for C4: adding fries with no size, and with no valid size list
membership, is rejected on a concrete session. -/
theorem addLine_size_reject_witness :
    getAvailableSizes "Fries & Sides" =
      some [ItemSize.small, ItemSize.medium, ItemSize.large] ∧
    add_item_to_order sessionF "F1" 1 none none = (false, sessionF) := by
  constructor
  · have h := addLine_size_reject.1 "Fries & Sides"
    rcases h with h | h
    · exact absurd h (by simp [getAvailableSizes])
    · exact h
  · exact addLine_size_reject.2 sessionF "F1" 1 none none friesItem
      [ItemSize.small, ItemSize.medium, ItemSize.large]
      (by simp [sessionF, menuLookup, friesItem]) (by simp [friesItem]) (by simp)
      (by intro x hx; cases hx)

/-! ## Resolver lemmas -/

/-- Scanning past candidates with no exact match only folds the
partial-match accumulator. -/
theorem resolveScan_append (input : String) (pre rest : List (String × MenuItem))
    (acc : Option String × ℕ) (h : ∀ p ∈ pre, normMenu p.2.name ≠ input) :
    resolveScan input (pre ++ rest) acc =
      resolveScan input rest (pre.foldl (updAcc input) acc) := by
  induction pre generalizing acc with
  | nil => simp
  | cons p ps ih =>
    simp only [List.cons_append, resolveScan]
    rw [if_neg (h p (by simp))]
    simp only [List.foldl_cons]
    exact ih (updAcc input acc p) (fun x hx => h x (by simp [hx]))

/-- A scan over candidates none of which matches exactly returns no exact
hit and the folded accumulator. -/
theorem resolveScan_no_exact (input : String) (L : List (String × MenuItem))
    (acc : Option String × ℕ) (h : ∀ p ∈ L, normMenu p.2.name ≠ input) :
    resolveScan input L acc = (none, L.foldl (updAcc input) acc) := by
  induction L generalizing acc with
  | nil => rfl
  | cons p ps ih =>
    simp only [resolveScan]
    rw [if_neg (h p (by simp))]
    simp only [List.foldl_cons]
    exact ih (updAcc input acc p) (fun x hx => h x (by simp [hx]))

/-- Folding the accumulator over candidates whose scores all stay below `m`
keeps the best score below `m`. -/
theorem foldl_updAcc_lt (input : String) (m : ℕ) (L : List (String × MenuItem))
    (acc : Option String × ℕ) (hacc : acc.2 < m)
    (h : ∀ p ∈ L, (strIn input (normMenu p.2.name) ||
        strIn (normMenu p.2.name) input) = true →
      tokensInterCount input (normMenu p.2.name) < m) :
    (L.foldl (updAcc input) acc).2 < m := by
  induction L generalizing acc with
  | nil => simpa using hacc
  | cons p ps ih =>
    simp only [List.foldl_cons]
    refine ih (updAcc input acc p) ?_ (fun x hx hx2 => h x (by simp [hx]) hx2)
    simp only [updAcc]
    by_cases hc : (strIn input (normMenu p.2.name) ||
        strIn (normMenu p.2.name) input) = true
    · rw [if_pos hc]
      by_cases hlt : acc.2 < tokensInterCount input (normMenu p.2.name)
      · rw [if_pos hlt]
        exact h p (by simp) hc
      · rw [if_neg hlt]
        exact hacc
    · rw [if_neg hc]
      exact hacc

/-- Folding the accumulator over candidates whose scores never strictly
exceed the held best score leaves the accumulator unchanged. -/
theorem foldl_updAcc_keep (input : String) (m : ℕ) (item_id : String)
    (L : List (String × MenuItem))
    (h : ∀ p ∈ L, (strIn input (normMenu p.2.name) ||
        strIn (normMenu p.2.name) input) = true →
      tokensInterCount input (normMenu p.2.name) ≤ m) :
    L.foldl (updAcc input) (some item_id, m) = (some item_id, m) := by
  induction L with
  | nil => rfl
  | cons p ps ih =>
    simp only [List.foldl_cons]
    have hstep : updAcc input (some item_id, m) p = (some item_id, m) := by
      simp only [updAcc]
      by_cases hc : (strIn input (normMenu p.2.name) ||
          strIn (normMenu p.2.name) input) = true
      · rw [if_pos hc]
        rw [if_neg (by simpa only [not_lt] using h p (by simp) hc)]
      · rw [if_neg hc]
    rw [hstep]
    exact ih (fun x hx hx2 => h x (by simp [hx]) hx2)

/-! ## C5: exact-match priority -/

/-- C5.  If the normalised query exactly equals the normalised name of a
candidate (the first such candidate, with the truthy id every built catalog
assigns), the resolver returns that candidate regardless of the
partial-match scores of any other candidate — the earlier candidates `pre`
and their accumulated scores are arbitrary; and the Big Mac scenario: the
query `I'd like a big mac meal` resolves to `B1`. -/
theorem resolve_exact_match :
    (∀ (pre post : List (String × MenuItem)) (item_id : String) (item : MenuItem)
        (query : String),
      item_id ≠ "" →
      (∀ p ∈ pre, normMenu p.2.name ≠ normQuery query) →
      normMenu item.name = normQuery query →
      resolveId (pre ++ (item_id, item) :: post) query = some item_id) ∧
    resolveId [("B1", bigMacItem)] bigMacMealQuery = some "B1" := by
  constructor
  · intro pre post item_id item query hid hpre hexact
    simp only [resolveId]
    rw [resolveScan_append _ _ _ _ hpre]
    simp only [resolveScan]
    rw [if_pos hexact]
    simp [pyTruthyS, hid]
  · decide

/-- Witness for C5: the exact-match branch applied to a concrete catalog
with a distracting partial-match candidate ahead of the exact one. -/
theorem resolve_exact_match_witness :
    resolveId ([("A2", sandwichItem)] ++ ("B1", bigMacItem) :: []) "big mac" = some "B1" := by
  exact resolve_exact_match.1 [("A2", sandwichItem)] [] "B1" bigMacItem "big mac"
    (by decide) (by decide) (by decide)

/-! ## C6: partial-match tie-break -/

/-- Counterexample to C6 as stated: `bigmacs` matches the query `bigmac` as
a substring and no exact match exists, so the claim says this
highest-scoring (score 0) substring candidate is returned; the code returns
nothing, because only a strictly positive token-intersection score can ever
be recorded (`score > best_score` with `best_score` starting at 0). -/
theorem resolve_zero_score_counterexample :
    strIn (normQuery "bigmac") (normMenu bigmacsItem.name) = true ∧
    normMenu bigmacsItem.name ≠ normQuery "bigmac" ∧
    resolveId [("X1", bigmacsItem)] "bigmac" = none := by
  refine ⟨by decide, by decide, by decide⟩

/-- C6 amended.  When no candidate matches exactly and some
substring-matching candidate attains a strictly positive maximal
token-intersection score, the resolver returns the earliest candidate
attaining that score: every earlier substring match scores strictly below
`m`, every later one at most `m`.  Zero-score substring matches are never
selected. -/
theorem resolve_partial_tiebreak :
    ∀ (pre post : List (String × MenuItem)) (item_id : String) (item : MenuItem)
      (query : String) (m : ℕ),
      item_id ≠ "" →
      (∀ p ∈ pre ++ (item_id, item) :: post, normMenu p.2.name ≠ normQuery query) →
      (strIn (normQuery query) (normMenu item.name) ||
        strIn (normMenu item.name) (normQuery query)) = true →
      tokensInterCount (normQuery query) (normMenu item.name) = m →
      0 < m →
      (∀ p ∈ pre, (strIn (normQuery query) (normMenu p.2.name) ||
          strIn (normMenu p.2.name) (normQuery query)) = true →
        tokensInterCount (normQuery query) (normMenu p.2.name) < m) →
      (∀ p ∈ post, (strIn (normQuery query) (normMenu p.2.name) ||
          strIn (normMenu p.2.name) (normQuery query)) = true →
        tokensInterCount (normQuery query) (normMenu p.2.name) ≤ m) →
      resolveId (pre ++ (item_id, item) :: post) query = some item_id := by
  intro pre post item_id item query m hid hnoexact hmatch hscore hm hpre hpost
  have hpre' : ∀ p ∈ pre, normMenu p.2.name ≠ normQuery query :=
    fun p hp => hnoexact p (by simp [hp])
  have hpost' : ∀ p ∈ post, normMenu p.2.name ≠ normQuery query :=
    fun p hp => hnoexact p (by simp [hp])
  have hitem : normMenu item.name ≠ normQuery query := hnoexact (item_id, item) (by simp)
  simp only [resolveId]
  rw [resolveScan_append _ _ _ _ hpre']
  set accPre := pre.foldl (updAcc (normQuery query)) (none, 0) with haccdef
  have haccPre : accPre.2 < m :=
    foldl_updAcc_lt (normQuery query) m pre (none, 0) hm hpre
  have hstep : updAcc (normQuery query) accPre (item_id, item) = (some item_id, m) := by
    simp only [updAcc]
    rw [if_pos hmatch]
    rw [hscore]
    rw [if_pos haccPre]
  simp only [resolveScan]
  rw [if_neg hitem]
  rw [hstep]
  rw [resolveScan_no_exact _ _ _ hpost']
  rw [foldl_updAcc_keep (normQuery query) m item_id post hpost]
  simp [pyTruthyS, hid]

/-- Witness for the amended C6: the constructed tie of the specification —
two candidates each sharing exactly one token with `chicken sandwich` — is
resolved to the candidate appearing first in catalog iteration order. -/
theorem resolve_partial_tiebreak_witness :
    resolveId ([] ++ ("A1", chickenItem) :: [("A2", sandwichItem)]) "chicken sandwich" =
      some "A1" := by
  exact resolve_partial_tiebreak [] [("A2", sandwichItem)] "A1" chickenItem
    "chicken sandwich" 1 (by decide) (by decide) (by decide) (by decide)
    (by decide) (by decide) (by decide)

/-! ## C7: the milk/coffee disambiguation override -/

/-- C7.  Whenever the resolver produces a candidate whose (lower-cased) name
contains `milk` or `coffee`, the add tool returns the corresponding
clarification and performs no mutation beyond the initial order auto-start:
the returned state is exactly `ensureOrder s`, so no line is appended and no
total changes.  Second conjunct: the coffee scenario on a concrete session
with an empty active order, which is returned untouched. -/
theorem ambiguous_override :
    (∀ (s : DriveThruAI) (item_name : String) (q : ℤ) (sz : Option ItemSize)
        (instr : Option String) (item_id : String) (item : MenuItem),
      resolveId (ensureOrder s).menu item_name = some item_id →
      menuLookup (ensureOrder s).menu item_id = some item →
      (strIn "milk" (pyLower item.name) = true ∨
        strIn "coffee" (pyLower item.name) = true) →
      ∃ r, add_to_order s item_name q sz instr = (r, ensureOrder s) ∧
        (r = ToolReply.clarifyMilk ∨ r = ToolReply.clarifyCoffee)) ∧
    (add_to_order coffeeSession "coffee" 1 none none =
        (ToolReply.clarifyCoffee, coffeeSession) ∧
      coffeeSession.current_order = some emptyOrder1 ∧ emptyOrder1.items = []) := by
  constructor
  · intro s item_name q sz instr item_id item hres hlook hmc
    by_cases hm : strIn "milk" (pyLower item.name) = true
    · refine ⟨ToolReply.clarifyMilk, ?_, Or.inl rfl⟩
      simp [add_to_order, hres, hlook, hm]
    · have hcof : strIn "coffee" (pyLower item.name) = true := by
        rcases hmc with h | h
        · exact absurd h hm
        · exact h
      refine ⟨ToolReply.clarifyCoffee, ?_, Or.inr rfl⟩
      simp [add_to_order, hres, hlook, hm, hcof]
  · refine ⟨?_, rfl, rfl⟩
    have hens : ensureOrder coffeeSession = coffeeSession := rfl
    have h1 : resolveId coffeeSession.menu "coffee" = some "C1" := by decide
    have h2 : menuLookup coffeeSession.menu "C1" = some coffeeItem := rfl
    have h3 : strIn "milk" (pyLower coffeeItem.name) = false := by decide
    have h4 : strIn "coffee" (pyLower coffeeItem.name) = true := by decide
    simp [add_to_order, hens, h1, h2, h3, h4]

/-- Witness for C7: the general override conjunct applied to the concrete
coffee session. -/
theorem ambiguous_override_witness :
    ∃ r, add_to_order coffeeSession "coffee" 2 none none = (r, ensureOrder coffeeSession) ∧
      (r = ToolReply.clarifyMilk ∨ r = ToolReply.clarifyCoffee) := by
  exact ambiguous_override.1 coffeeSession "coffee" 2 none none "C1" coffeeItem
    (by decide) rfl (Or.inr (by decide))

/-! ## C10: automatic order start in the add tool -/

/-- C10.  The first step of the `add_to_order` tool starts a fresh empty
in-progress order when the session has none and otherwise leaves the session
alone, so the state the tool threads onward always carries an active order;
and on any state with an active order, a false result of
`add_item_to_order` can only come from a failed menu lookup or a size
rejection — the no-active-order failure branch is unreachable from this
entry point. -/
theorem add_tool_autostart :
    (∀ s : DriveThruAI, s.current_order = none →
      ensureOrder s = { s with
        current_order := some (Order.mk
          ("order_" ++ toString (s.orders_history.length + 1)) [] "in_progress" 0) }) ∧
    (∀ (s : DriveThruAI) (o : Order), s.current_order = some o → ensureOrder s = s) ∧
    (∀ s : DriveThruAI, (ensureOrder s).current_order.isSome = true) ∧
    (∀ (s : DriveThruAI) (item_id : String) (q : ℤ) (sz : Option ItemSize)
        (instr : Option String),
      s.current_order.isSome = true →
      (add_item_to_order s item_id q sz instr).1 = false →
      menuLookup s.menu item_id = none ∨
        ∃ item, menuLookup s.menu item_id = some item ∧
          sizeRejects item.available_sizes sz = true) := by
  refine ⟨?_, ?_, ?_, ?_⟩
  · intro s h
    simp [ensureOrder, start_new_order, h]
  · intro s o h
    simp [ensureOrder, h]
  · intro s
    by_cases h : s.current_order = none
    · simp [ensureOrder, start_new_order, h]
    · obtain ⟨o, ho⟩ := Option.ne_none_iff_exists'.mp h
      simp [ensureOrder, ho]
  · intro s item_id q sz instr hsome hfail
    obtain ⟨o, ho⟩ := Option.isSome_iff_exists.mp hsome
    cases hl : menuLookup s.menu item_id with
    | none => exact Or.inl rfl
    | some item =>
      right
      refine ⟨item, rfl, ?_⟩
      by_cases hrej : sizeRejects item.available_sizes sz = true
      · exact hrej
      · exfalso
        have : (add_item_to_order s item_id q sz instr).1 = true := by
          simp [add_item_to_order, ho, hl, hrej]
        rw [hfail] at this
        exact Bool.false_ne_true this

/-- Witness for C10: all four conjuncts instantiated on concrete sessions. -/
theorem add_tool_autostart_witness :
    ensureOrder noOrderSession = { noOrderSession with
      current_order := some (Order.mk "order_1" [] "in_progress" 0) } ∧
    ensureOrder sessionB = sessionB ∧
    (ensureOrder noOrderSession).current_order.isSome = true ∧
    (menuLookup sessionF.menu "F1" = none ∨
      ∃ item, menuLookup sessionF.menu "F1" = some item ∧
        sizeRejects item.available_sizes none = true) := by
  refine ⟨?_, ?_, ?_, ?_⟩
  · exact add_tool_autostart.1 noOrderSession rfl
  · exact add_tool_autostart.2.1 sessionB emptyOrder1 rfl
  · exact add_tool_autostart.2.2.1 noOrderSession
  · exact add_tool_autostart.2.2.2 sessionF "F1" 1 none none rfl
      (by simp [add_item_to_order, sessionF, menuLookup, friesItem, sizeRejects])

/-! ## Rounding and price-range lemmas -/

/-- Half-to-even rounding stays between floor and ceiling. -/
theorem roundHalfEven_bounds (q : ℚ) : ⌊q⌋ ≤ roundHalfEven q ∧ roundHalfEven q ≤ ⌈q⌉ := by
  unfold roundHalfEven
  split
  · exact ⟨le_refl _, Int.floor_le_ceil q⟩
  · split
    · exact ⟨Int.floor_le_ceil q, le_refl _⟩
    · split
      · exact ⟨le_refl _, Int.floor_le_ceil q⟩
      · exact ⟨Int.floor_le_ceil q, le_refl _⟩

/-- Rounding to cents a value lying in a 200-cent window anchored at an
integer number of cents stays in the closed window. -/
theorem pyRound2_bounds (z : ℤ) (q : ℚ) (h1 : (z : ℚ) ≤ 100 * q)
    (h2 : 100 * q < (z : ℚ) + 200) :
    (z : ℚ)/100 ≤ pyRound2 q ∧ pyRound2 q ≤ (z : ℚ)/100 + 2 := by
  have hfl : z ≤ ⌊100 * q⌋ := Int.le_floor.mpr h1
  have hcl : ⌈100 * q⌉ ≤ z + 200 := by
    apply Int.ceil_le.mpr
    push_cast
    linarith
  obtain ⟨hb1, hb2⟩ := roundHalfEven_bounds (100 * q)
  unfold pyRound2
  constructor
  · have h : (z : ℚ) ≤ (roundHalfEven (100 * q) : ℚ) := by
      exact_mod_cast le_trans hfl hb1
    linarith
  · have h : ((roundHalfEven (100 * q) : ℤ) : ℚ) ≤ (z : ℚ) + 200 := by
      exact_mod_cast le_trans hb2 hcl
    linarith

/-- Every base price is an integer number of cents. -/
theorem get_base_price_cents (c : String) : ∃ z : ℤ, get_base_price c = (z : ℚ)/100 := by
  unfold get_base_price
  split
  · exact ⟨599, by norm_num⟩
  · split
    · exact ⟨499, by norm_num⟩
    · split
      · exact ⟨549, by norm_num⟩
      · split
        · exact ⟨599, by norm_num⟩
        · split
          · exact ⟨499, by norm_num⟩
          · split
            · exact ⟨299, by norm_num⟩
            · split
              · exact ⟨449, by norm_num⟩
              · split
                · exact ⟨399, by norm_num⟩
                · split
                  · exact ⟨299, by norm_num⟩
                  · split
                    · exact ⟨199, by norm_num⟩
                    · exact ⟨499, by norm_num⟩

/-- One priced item built from a base price and an in-range jitter lands in
the closed two-unit window above the base price. -/
theorem base_price_jitter_bound (c : String) (u : ℚ) (h0 : 0 ≤ u) (h2 : u < 2) :
    get_base_price c ≤ pyRound2 (get_base_price c + u) ∧
    pyRound2 (get_base_price c + u) ≤ get_base_price c + 2 := by
  obtain ⟨z, hz⟩ := get_base_price_cents c
  rw [hz]
  have hb := pyRound2_bounds z ((z : ℚ)/100 + u) (by linarith) (by linarith)
  exact hb

/-- Membership after a dictionary assignment: an entry is an old entry or
the assigned pair. -/
theorem dictInsert_mem (m : List (String × MenuItem)) (k : String) (v : MenuItem)
    (p : String × MenuItem) (hp : p ∈ dictInsert m k v) : p ∈ m ∨ p = (k, v) := by
  unfold dictInsert at hp
  split at hp
  · obtain ⟨x, hx, hfx⟩ := List.mem_map.mp hp
    split at hfx
    · right; exact hfx.symm
    · left; rw [← hfx]; exact hx
  · rcases List.mem_append.mp hp with h | h
    · left; exact h
    · right; simpa using h

/-- The per-category scrape loop preserves the in-range price invariant. -/
theorem scrapeItems_price (jitter : ℕ → ℚ) (hj : ∀ k, 0 ≤ jitter k ∧ jitter k < 2)
    (category : String) (names : List String) (md : List (String × MenuItem)) (k : ℕ)
    (hmd : ∀ p ∈ md, priceInRange p) :
    ∀ p ∈ (scrapeItems jitter category names (md, k)).1, priceInRange p := by
  induction names generalizing md k with
  | nil => simpa [scrapeItems] using hmd
  | cons n ns ih =>
    simp only [scrapeItems]
    split
    · exact ih md k hmd
    · refine ih _ _ ?_
      intro p hp
      rcases dictInsert_mem _ _ _ p hp with h | h
      · exact hmd p h
      · subst h
        exact base_price_jitter_bound category (jitter k) (hj k).1 (hj k).2

/-- The whole-scrape fold preserves the in-range price invariant. -/
theorem foldScrape_price (jitter : ℕ → ℚ) (hj : ∀ k, 0 ≤ jitter k ∧ jitter k < 2)
    (raw : List (String × List String)) :
    ∀ acc : List (String × MenuItem) × ℕ, (∀ p ∈ acc.1, priceInRange p) →
      ∀ p ∈ (raw.foldl (fun a q => scrapeItems jitter q.1 q.2 a) acc).1, priceInRange p := by
  induction raw with
  | nil => intro acc h; simpa using h
  | cons r rs ih =>
    intro acc hacc
    simp only [List.foldl_cons]
    refine ih (scrapeItems jitter r.1 r.2 acc) ?_
    obtain ⟨md, k⟩ := acc
    exact scrapeItems_price jitter hj r.1 r.2 md k hacc

/-! ## C8: catalog price range -/

/-- Counterexample to C8 as stated: with jitter 1999/1000 — inside the
`[0, 2)` range `random.uniform(0, 2)` draws from — the single Burgers item
is stored with price exactly `basePrice + 2`, which is outside the half-open
interval `[B, B+2)` the claim asserts. -/
theorem scrape_price_boundary_counterexample :
    ((scrape_menu (MenuScraper.mk []) [("Burgers", ["Big Mac"])]
        (fun _ => 1999/1000)).2.map (fun p => p.2.price)) =
      [get_base_price "Burgers" + 2] ∧
    ¬ (get_base_price "Burgers" + 2 < get_base_price "Burgers" + 2) ∧
    (0 : ℚ) ≤ 1999/1000 ∧ (1999 : ℚ)/1000 < 2 := by
  refine ⟨?_, lt_irrefl _, by norm_num, by norm_num⟩
  have hscrape : ((scrape_menu (MenuScraper.mk []) [("Burgers", ["Big Mac"])]
      (fun _ => 1999/1000)).2.map (fun p => p.2.price)) =
      [pyRound2 (get_base_price "Burgers" + 1999/1000)] := rfl
  rw [hscrape]
  have hB : get_base_price "Burgers" = 549/100 := by simp [get_base_price]
  rw [hB]
  have hceil : ⌈(7489 : ℚ)/10⌉ = 749 := by
    rw [Int.ceil_eq_iff]
    constructor <;> norm_num
  norm_num [pyRound2, roundHalfEven]
  rw [hceil]
  norm_num

/-- C8 amended.  Every item any scrape places into the catalog has a price
in the closed interval `[B, B+2]` where `B` is the base price of its
category (the jitter is drawn from `[0, 2)` but rounding to cents can reach
the top end); and the base price of any category outside the fixed table is
the default `4.99`. -/
theorem scrape_price_range :
    (∀ (sc : MenuScraper) (raw : List (String × List String)) (jitter : ℕ → ℚ),
      (∀ k, 0 ≤ jitter k ∧ jitter k < 2) →
      (∀ p ∈ sc.menu_data, priceInRange p) →
      ∀ p ∈ (scrape_menu sc raw jitter).2, priceInRange p) ∧
    (∀ c : String, c ≠ "Featured Favorites" → c ≠ "Breakfast" → c ≠ "Burgers" →
      c ≠ "Chicken & Fish Sandwiches" → c ≠ "McNuggets" → c ≠ "Fries & Sides" →
      c ≠ "Happy Meal" → c ≠ "McCafé Coffees" → c ≠ "Sweets & Treats" →
      c ≠ "Beverages" → get_base_price c = 499/100) := by
  constructor
  · intro sc raw jitter hj hsc
    simp only [scrape_menu]
    exact foldScrape_price jitter hj raw (sc.menu_data, 0) hsc
  · intro c h1 h2 h3 h4 h5 h6 h7 h8 h9 h10
    simp [get_base_price, h1, h2, h3, h4, h5, h6, h7, h8, h9, h10]

/-- Witness for the amended C8: a one-item scrape with jitter 1/2 lands in
range, and an unknown category gets the default base price. -/
theorem scrape_price_range_witness :
    (∀ p ∈ (scrape_menu (MenuScraper.mk []) [("Burgers", ["Big Mac"])]
        (fun _ => 1/2)).2, priceInRange p) ∧
    get_base_price "Pizza" = 499/100 := by
  constructor
  · exact scrape_price_range.1 (MenuScraper.mk []) [("Burgers", ["Big Mac"])]
      (fun _ => 1/2) (fun _ => by norm_num) (by simp)
  · exact scrape_price_range.2 "Pizza" (by decide) (by decide) (by decide) (by decide)
      (by decide) (by decide) (by decide) (by decide) (by decide) (by decide)

/-! ## C9: scrape accumulation across builds -/

/-- C9 is refuted by the code: `menu_data` is never cleared, so a second
build on the same scraper returns a catalog that still contains the item of
the first build — the new catalog is not built only from the raw entries of
its own build, and the structure the first caller holds is the one being
extended.  Evaluation of two successive one-item builds. -/
theorem scrape_menu_accumulates :
    ((scrape_menu (MenuScraper.mk []) [("Burgers", ["Big Mac"])]
        (fun _ => 0)).2.map (fun p => (p.1, p.2.name))) = [("Bur_1", "Big Mac")] ∧
    ((scrape_menu (scrape_menu (MenuScraper.mk []) [("Burgers", ["Big Mac"])]
          (fun _ => 0)).1
        [("Burgers", ["McDouble"])] (fun _ => 0)).2.map (fun p => (p.1, p.2.name))) =
      [("Bur_1", "Big Mac"), ("Bur_2", "McDouble")] := by
  exact ⟨rfl, rfl⟩

end McD
